import Mathlib

/-!
Verification of the Brainfuck interpreter in src/index.js of brainfuck-runner.
The definitions below are a shallow embedding of the function interpretBrainfuck
and its helpers (detectInfiniteLoop, showDebugInfo, the breakpoint scan).
Machine bytes are Nat values kept below 256 by the same expressions the source
uses; the 30000-cell Uint8Array is a list of Nat; the JS Set of fingerprint
strings is a Finset of fingerprint triples.
-/

set_option linter.unusedVariables false

namespace BF

/-- Tape length from the source: new Uint8Array(30000). -/
def TAPE_SIZE : Nat := 30000

/-- Iteration ceiling from the source: const MAX_ITERATIONS = 10000000. -/
def MAX_ITERATIONS : Nat := 10000000

/-- Case of the switch for the > instruction: pointer = (pointer + 1) % memory.length. -/
def moveRight (p : Nat) : Nat := (p + 1) % TAPE_SIZE

/-- Case for < : pointer = pointer - 1 < 0 ? memory.length - 1 : pointer - 1. -/
def moveLeft (p : Nat) : Nat := if p = 0 then TAPE_SIZE - 1 else p - 1

/-- Case for + : memory[pointer] = (memory[pointer] + 1) % 256. -/
def incByte (v : Nat) : Nat := (v + 1) % 256

/-- Case for - : memory[pointer] = memory[pointer] - 1 < 0 ? 255 : memory[pointer] - 1. -/
def decByte (v : Nat) : Nat := if v = 0 then 255 else v - 1

/-- Termination causes, one per break path of the source loop: the iteration
guard (prints "Execution timeout"), the loop heuristic (prints "Potential
infinite loop detected"), and the q command of the debug prompt. -/
inductive Reason
  | iterationLimit
  | loopSuspected
  | userQuit
  deriving DecidableEq

/-- detectInfiniteLoop from the source: membership test on the history set,
then add, then clear when the size exceeds 1000.  Returns the flag and the
updated set. -/
def detectInfiniteLoop (fp : Nat × Nat × Nat) (history : Finset (Nat × Nat × Nat)) :
    Bool × Finset (Nat × Nat × Nat) :=
  if fp ∈ history then
    (true, history)
  else
    let h2 := insert fp history
    (false, if 1000 < h2.card then ∅ else h2)

/-- Execution state of interpretBrainfuck: one field per mutable local of the
source function (memory, pointer, output, codePointer, iterations, isRunning,
loopHistory, lastCodePointer which starts at -1 and is modelled as none,
samePositionCount, stepMode), a reason tag recording which break path fired,
and the pending interactive inputs that the source reads through readline
(characters for the , instruction and command lines for the debug prompt). -/
structure BFState where
  memory : List Nat
  pointer : Nat
  output : List Nat
  codePointer : Nat
  iterations : Nat
  isRunning : Bool
  loopHistory : Finset (Nat × Nat × Nat)
  lastCodePointer : Option Nat
  samePositionCount : Nat
  stepMode : Bool
  reason : Option Reason
  inputChars : List Nat
  commands : List String
  deriving DecidableEq

/-- Per-run configuration fixed before the loop: the debug flag, the breakpoint
positions, and the instruction stream after marker removal. -/
structure Config where
  debug : Bool
  breakpoints : List Nat
  code : List Char

/-- Breakpoint scan of the source: positions i with code[i] === '#' in the
original text, in increasing order. -/
def findBreakpoints (code : List Char) : List Nat :=
  (List.range code.length).filter fun i => code.getD i ' ' = '#'

/-- Marker removal of the source: code.replace of every '#' by nothing. -/
def stripMarkers (code : List Char) : List Char :=
  code.filter fun c => c ≠ '#'

/-- Setup phase of interpretBrainfuck: breakpoints are collected only in debug
mode, markers are stripped unconditionally. -/
def mkConfig (debug : Bool) (source : List Char) : Config :=
  { debug := debug
    breakpoints := if debug then findBreakpoints source else []
    code := stripMarkers source }

/-- Initial values of the mutable locals of interpretBrainfuck, with the given
pending inputs. -/
def initState (inputChars : List Nat) (commands : List String) : BFState :=
  { memory := List.replicate TAPE_SIZE 0
    pointer := 0
    output := []
    codePointer := 0
    iterations := 0
    isRunning := true
    loopHistory := ∅
    lastCodePointer := none
    samePositionCount := 0
    stepMode := false
    reason := none
    inputChars := inputChars
    commands := commands }

/-- Fingerprint passed to detectInfiniteLoop: (pointer, codePointer,
memory[pointer]). -/
def fingerprint (s : BFState) : Nat × Nat × Nat :=
  (s.pointer, s.codePointer, s.memory.getD s.pointer 0)

/-- Infinite-loop check of the source loop body: only when codePointer equals
lastCodePointer is the same-position counter bumped and, short-circuiting on
the counter, detectInfiniteLoop consulted; either signal breaks the loop.  On
the non-breaking paths lastCodePointer is set to codePointer. -/
def loopCheck (s : BFState) : BFState :=
  if s.lastCodePointer = some s.codePointer then
    let spc := s.samePositionCount + 1
    if 1000 < spc then
      { s with samePositionCount := spc, isRunning := false,
               reason := some Reason.loopSuspected }
    else
      let r := detectInfiniteLoop (fingerprint s) s.loopHistory
      if r.1 then
        { s with samePositionCount := spc, loopHistory := r.2,
                 isRunning := false, reason := some Reason.loopSuspected }
      else
        { s with samePositionCount := spc, loopHistory := r.2,
                 lastCodePointer := some s.codePointer }
  else
    { s with samePositionCount := 0, lastCodePointer := some s.codePointer }

/-- Lowercasing of a command line, the command.toLowerCase() of the source
(ASCII commands only are compared against). -/
def toLowerString (str : String) : String :=
  String.mk (str.data.map Char.toLower)

/-- Switch of showDebugInfo on the entered command: q stops the run, s enables
step mode, c disables it, anything else falls through. -/
def applyDebugCommand (cmd : String) (s : BFState) : BFState :=
  if toLowerString cmd = "q" then
    { s with isRunning := false, reason := some Reason.userQuit }
  else if toLowerString cmd = "s" then
    { s with stepMode := true }
  else if toLowerString cmd = "c" then
    { s with stepMode := false }
  else
    s

/-- Prompt condition of showDebugInfo: debug mode and (stepMode or the current
codePointer is listed in breakpoints). -/
def pauseCond (cfg : Config) (s : BFState) : Bool :=
  cfg.debug && (s.stepMode || cfg.breakpoints.contains s.codePointer)

/-- Debug phase of one cycle: when the prompt condition holds, one command line
is consumed and applied; otherwise showDebugInfo only renders and delays,
leaving the state unchanged. -/
def debugStep (cfg : Config) (s : BFState) : BFState :=
  if pauseCond cfg s then
    applyDebugCommand (s.commands.headD "") { s with commands := s.commands.tail }
  else
    s

/-- Forward bracket scan of the [ case: repeatedly advance codePointer and
track the bracket count; none models the source reading past the end of the
string forever (code[codePointer] is undefined there, so the JS loop never
terminates). -/
def scanForward (code : List Char) : Nat → Nat → Nat → Option Nat
  | 0, _, _ => none
  | fuel + 1, cp, bc =>
    match code[cp + 1]? with
    | none => none
    | some c =>
      let bc2 := if c = '[' then bc + 1 else if c = ']' then bc - 1 else bc
      if bc2 = 0 then some (cp + 1) else scanForward code fuel (cp + 1) bc2

/-- Backward bracket scan of the ] case; none models the source walking below
index 0 forever. -/
def scanBackward (code : List Char) : Nat → Nat → Nat → Option Nat
  | 0, _, _ => none
  | fuel + 1, cp, bc =>
    if cp = 0 then none
    else
      match code[cp - 1]? with
      | none => none
      | some c =>
        let bc2 := if c = '[' then bc - 1 else if c = ']' then bc + 1 else bc
        if bc2 = 0 then some (cp - 1) else scanBackward code fuel (cp - 1) bc2

/-- Switch on code[codePointer] followed by the unconditional codePointer++.
The , case stores input.charCodeAt(0) || 0, truncated to a byte by the
Uint8Array store; an exhausted input list plays the empty answer.  A missing
or unrecognized character hits no case.  none propagates bracket-scan
divergence. -/
def execInstr (cfg : Config) (s : BFState) : Option BFState :=
  let cell := s.memory.getD s.pointer 0
  let done : Option BFState :=
    match cfg.code[s.codePointer]? with
    | none => some s
    | some c =>
      if c = '>' then some { s with pointer := moveRight s.pointer }
      else if c = '<' then some { s with pointer := moveLeft s.pointer }
      else if c = '+' then some { s with memory := s.memory.set s.pointer (incByte cell) }
      else if c = '-' then some { s with memory := s.memory.set s.pointer (decByte cell) }
      else if c = '.' then some { s with output := s.output ++ [cell] }
      else if c = ',' then
        some { s with memory := s.memory.set s.pointer (s.inputChars.headD 0 % 256),
                      inputChars := s.inputChars.tail }
      else if c = '[' then
        if cell = 0 then
          match scanForward cfg.code (cfg.code.length + 1) s.codePointer 1 with
          | some cp => some { s with codePointer := cp }
          | none => none
        else some s
      else if c = ']' then
        if cell = 0 then some s
        else
          match scanBackward cfg.code (cfg.code.length + 1) s.codePointer 1 with
          | some cp => some { s with codePointer := cp }
          | none => none
      else some s
  done.map fun t => { t with codePointer := t.codePointer + 1 }

/-- One iteration of the while loop of interpretBrainfuck.  The iteration
guard evaluates iterations++ > MAX_ITERATIONS: the pre-increment value is
compared and the counter is incremented on every path.  Then the loop check,
the debug phase, and the instruction.  A q command stops the run but the
current instruction still executes, exactly as in the source, where the while
condition is only re-tested afterwards. -/
def step (cfg : Config) (s : BFState) : Option BFState :=
  if MAX_ITERATIONS < s.iterations then
    some { s with iterations := s.iterations + 1, isRunning := false,
                  reason := some Reason.iterationLimit }
  else
    let s1 := loopCheck { s with iterations := s.iterations + 1 }
    if s1.isRunning then
      execInstr cfg (debugStep cfg s1)
    else
      some s1

/-- While loop of interpretBrainfuck, driven by fuel; the loop itself runs
while codePointer < code.length and isRunning.  On bracket-scan divergence the
current state is returned unchanged (no theorem below relies on that case). -/
def run (cfg : Config) : Nat → BFState → BFState
  | 0, s => s
  | fuel + 1, s =>
    if s.codePointer < cfg.code.length ∧ s.isRunning = true then
      match step cfg s with
      | some t => run cfg fuel t
      | none => s
    else s

/-- Result object returned by interpretBrainfuck: the accumulated output, the
iteration counter, and status isRunning ? completed : terminated. -/
structure RunResult where
  output : List Nat
  iterations : Nat
  status : String
  deriving DecidableEq

/-- Construction of the returned object from the final state. -/
def mkResult (s : BFState) : RunResult :=
  { output := s.output
    iterations := s.iterations
    status := if s.isRunning then "completed" else "terminated" }

/-- Whether the cycle starting at s reaches the instruction switch: the
iteration guard must pass and the loop check must leave the run alive. -/
def cycleExec (s : BFState) : Bool :=
  if MAX_ITERATIONS < s.iterations then false
  else (loopCheck { s with iterations := s.iterations + 1 }).isRunning

/-- Code positions of the instructions actually executed, cycle by cycle. -/
def execTrace (cfg : Config) : Nat → BFState → List Nat
  | 0, _ => []
  | fuel + 1, s =>
    if s.codePointer < cfg.code.length ∧ s.isRunning = true then
      match step cfg s with
      | some t => (if cycleExec s then [s.codePointer] else []) ++ execTrace cfg fuel t
      | none => []
    else []

/-- Run in the presence of the SIGINT handler of the source: when the signal
is observed (modelled at the top of cycle sigAt), the handler prints a notice
and calls process.exit(0), so no result object ever reaches the caller: the
outcome is none. -/
def runWithInterrupt (cfg : Config) : Nat → Nat → BFState → Option RunResult
  | 0, sigAt, s =>
    if sigAt = 0 then none else some (mkResult s)
  | fuel + 1, sigAt, s =>
    if sigAt = 0 then none
    else
      if s.codePointer < cfg.code.length ∧ s.isRunning = true then
        match step cfg s with
        | some t => runWithInterrupt cfg fuel (sigAt - 1) t
        | none => none
      else some (mkResult s)

/-- Invariant of the execution state: cursor inside the tape, tape of its
fixed length, every cell a byte. -/
def Inv (s : BFState) : Prop :=
  s.pointer < TAPE_SIZE ∧ s.memory.length = TAPE_SIZE ∧ ∀ v ∈ s.memory, v < 256

/-- Position in the stripped stream of the original position q: the number of
non-marker characters strictly before q.  Written from the claim wording of
C5 ("consistent with the instruction pointer's indexing over the stripped
instruction stream"), to be compared with the recorded breakpoint position. -/
def strippedIndex (code : List Char) (q : Nat) : Nat :=
  ((code.take q).filter fun c => c ≠ '#').length

/-- Offset of the first non-marker character of a list, if any. -/
def firstNonMarker : List Char → Option Nat
  | [] => none
  | c :: rest => if c = '#' then (firstNonMarker rest).map (· + 1) else some 0

/-- Original-text position of the instruction immediately following position p,
that is the first non-marker character after p.  Written from the claim
wording of C5 ("the instruction that immediately followed that marker in the
original text"). -/
def nextNonMarker (code : List Char) (p : Nat) : Option Nat :=
  (firstNonMarker (code.drop (p + 1))).map (· + (p + 1))

/-- Program of claim C1: ++++[>++++<-]>. -/
def src1 : List Char :=
  ['+', '+', '+', '+', '[', '>', '+', '+', '+', '+', '<', '-', ']', '>', '.']

def cfg1 : Config := mkConfig false src1

/-- Empty pending inputs: non-debug runs of programs without the , instruction. -/
def init0 : BFState := initState [] []

/-- Program whose fingerprints recur while the instruction pointer alternates
between three positions: +[-+]. -/
def src4 : List Char := ['+', '[', '-', '+', ']']

def cfg4 : Config := mkConfig false src4

/-- Source text with two breakpoint markers: +#+#+. -/
def src5 : List Char := ['+', '#', '+', '#', '+', '.']

/-- Source text with one leading breakpoint marker. -/
def srcW : List Char := ['#', '+']

/-- One-instruction program used to probe single cycles. -/
def cfg3 : Config := mkConfig false ['+']

/-- State reached after exactly 10000000 instruction cycles of some run: the
next cycle is the one the claim of C3 speaks about. -/
def s3 : BFState := { init0 with iterations := MAX_ITERATIONS }

/-- Program +.[] , whose ] instruction repeats at one position and trips the
fingerprint heuristic after producing output. -/
def src6b : List Char := ['+', '.', '[', ']']

def cfg6b : Config := mkConfig false src6b

/-- Program .+ , interrupted mid-run in the counterexample of C6. -/
def src6c : List Char := ['.', '+']

def cfg6c : Config := mkConfig false src6c

/-- Debug-mode source #.+ with a breakpoint at position 0. -/
def src6d : List Char := ['#', '.', '+']

def cfg6d : Config := mkConfig true src6d

/-- Debug run of src6d whose first prompt answer is the q command. -/
def init6d : BFState := initState [] ["q"]

/-- State that has already produced output when the iteration guard fires. -/
def s6iter : BFState := { init0 with iterations := 10000001, output := [7] }

/-- State whose fingerprint is already recorded in its loop history and whose
previous cycle sat at the same code position. -/
def s4w : BFState := { init0 with lastCodePointer := some 0, loopHistory := {(0, 0, 0)} }

/-- Successor of init0 under cfg1: the first + instruction executed. -/
def t10 : BFState := { init0 with memory := init0.memory.set 0 (incByte 0), codePointer := 1 }

end BF
namespace BF

set_option linter.unnecessarySeqFocus false

theorem loopCheck_proj (s : BFState) :
    (loopCheck s).memory = s.memory ∧ (loopCheck s).pointer = s.pointer ∧
    (loopCheck s).output = s.output ∧ (loopCheck s).codePointer = s.codePointer ∧
    (loopCheck s).iterations = s.iterations ∧ (loopCheck s).inputChars = s.inputChars ∧
    (loopCheck s).commands = s.commands ∧ (loopCheck s).stepMode = s.stepMode := by
  simp only [loopCheck]
  split_ifs <;> simp

theorem applyDebugCommand_proj (cmd : String) (s : BFState) :
    (applyDebugCommand cmd s).memory = s.memory ∧
    (applyDebugCommand cmd s).pointer = s.pointer ∧
    (applyDebugCommand cmd s).output = s.output ∧
    (applyDebugCommand cmd s).codePointer = s.codePointer ∧
    (applyDebugCommand cmd s).iterations = s.iterations ∧
    (applyDebugCommand cmd s).inputChars = s.inputChars := by
  simp only [applyDebugCommand]
  split_ifs <;> simp

theorem debugStep_proj (cfg : Config) (s : BFState) :
    (debugStep cfg s).memory = s.memory ∧ (debugStep cfg s).pointer = s.pointer ∧
    (debugStep cfg s).output = s.output ∧ (debugStep cfg s).codePointer = s.codePointer ∧
    (debugStep cfg s).iterations = s.iterations ∧
    (debugStep cfg s).inputChars = s.inputChars := by
  unfold debugStep
  split
  · exact applyDebugCommand_proj _ _
  · simp

theorem execInstr_some_iterations {cfg : Config} {s t : BFState}
    (h : execInstr cfg s = some t) : t.iterations = s.iterations := by
  simp only [execInstr, Option.map_eq_some'] at h
  obtain ⟨u, hu, rfl⟩ := h
  split at hu
  · simp only [Option.some.injEq] at hu; subst hu; rfl
  · split_ifs at hu
    all_goals first
      | (simp only [Option.some.injEq] at hu; subst hu; rfl)
      | (split at hu <;>
          first
            | (simp only [Option.some.injEq] at hu; subst hu; rfl)
            | simp at hu)

theorem step_some_iterations {cfg : Config} {s t : BFState}
    (h : step cfg s = some t) : t.iterations = s.iterations + 1 := by
  simp only [step] at h
  split at h
  · simp only [Option.some.injEq] at h; subst h; rfl
  · split at h
    · have := execInstr_some_iterations h
      rw [this, (debugStep_proj cfg _).2.2.2.2.1, (loopCheck_proj _).2.2.2.2.1]
    · simp only [Option.some.injEq] at h; subst h
      rw [(loopCheck_proj _).2.2.2.2.1]

theorem getD_lt_of_mem_lt {l : List Nat} {p : Nat} (hp : p < l.length)
    (hmem : ∀ v ∈ l, v < 256) : l.getD p 0 < 256 := by
  rw [List.getD_eq_getElem?_getD, List.getElem?_eq_getElem hp, Option.getD_some]
  exact hmem _ (List.getElem_mem hp)

theorem inv_set {s : BFState} (hInv : Inv s) {v : Nat} (hv : v < 256) :
    Inv { s with memory := s.memory.set s.pointer v } := by
  obtain ⟨hp, hlen, hmem⟩ := hInv
  refine ⟨hp, by simpa using hlen, ?_⟩
  intro w hw
  rcases List.mem_or_eq_of_mem_set hw with h | h
  · exact hmem w h
  · subst h; exact hv

theorem moveRight_lt (p : Nat) : moveRight p < TAPE_SIZE := by
  unfold moveRight TAPE_SIZE
  exact Nat.mod_lt _ (by norm_num)

theorem moveLeft_lt {p : Nat} (hp : p < TAPE_SIZE) : moveLeft p < TAPE_SIZE := by
  unfold moveLeft
  split
  · norm_num [TAPE_SIZE]
  · omega

theorem incByte_lt (v : Nat) : incByte v < 256 := Nat.mod_lt _ (by norm_num)

theorem decByte_lt {v : Nat} (hv : v < 256) : decByte v < 256 := by
  unfold decByte; split <;> omega

theorem execInstr_inv {cfg : Config} {s t : BFState} (hInv : Inv s)
    (h : execInstr cfg s = some t) : Inv t := by
  have hcell : s.memory.getD s.pointer 0 < 256 :=
    getD_lt_of_mem_lt (by rw [hInv.2.1]; exact hInv.1) hInv.2.2
  have bump : ∀ {u : BFState}, Inv u → Inv { u with codePointer := u.codePointer + 1 } :=
    fun hu => ⟨hu.1, hu.2.1, hu.2.2⟩
  simp only [execInstr, Option.map_eq_some'] at h
  obtain ⟨u, hu, rfl⟩ := h
  apply bump
  split at hu
  · simp only [Option.some.injEq] at hu; subst hu; exact hInv
  · split_ifs at hu
    · simp only [Option.some.injEq] at hu; subst hu
      exact ⟨moveRight_lt _, hInv.2.1, hInv.2.2⟩
    · simp only [Option.some.injEq] at hu; subst hu
      exact ⟨moveLeft_lt hInv.1, hInv.2.1, hInv.2.2⟩
    · simp only [Option.some.injEq] at hu; subst hu
      exact inv_set hInv (incByte_lt _)
    · simp only [Option.some.injEq] at hu; subst hu
      exact inv_set hInv (decByte_lt hcell)
    · simp only [Option.some.injEq] at hu; subst hu
      exact ⟨hInv.1, hInv.2.1, hInv.2.2⟩
    · simp only [Option.some.injEq] at hu; subst hu
      exact inv_set hInv (Nat.mod_lt _ (by norm_num))
    · split at hu
      · simp only [Option.some.injEq] at hu; subst hu
        exact ⟨hInv.1, hInv.2.1, hInv.2.2⟩
      · simp at hu
    · simp only [Option.some.injEq] at hu; subst hu; exact hInv
    · simp only [Option.some.injEq] at hu; subst hu; exact hInv
    · split at hu
      · simp only [Option.some.injEq] at hu; subst hu
        exact ⟨hInv.1, hInv.2.1, hInv.2.2⟩
      · simp at hu
    · simp only [Option.some.injEq] at hu; subst hu; exact hInv

theorem inv_of_eq_fields {s u : BFState} (hInv : Inv s)
    (hm : u.memory = s.memory) (hp : u.pointer = s.pointer) : Inv u := by
  refine ⟨?_, ?_, ?_⟩
  · rw [hp]; exact hInv.1
  · rw [hm]; exact hInv.2.1
  · rw [hm]; exact hInv.2.2

theorem step_inv {cfg : Config} {s t : BFState} (hInv : Inv s)
    (h : step cfg s = some t) : Inv t := by
  simp only [step] at h
  split at h
  · simp only [Option.some.injEq] at h; subst h
    exact ⟨hInv.1, hInv.2.1, hInv.2.2⟩
  · have hInv1 : Inv (loopCheck { s with iterations := s.iterations + 1 }) := by
      have := loopCheck_proj { s with iterations := s.iterations + 1 }
      exact inv_of_eq_fields ⟨hInv.1, hInv.2.1, hInv.2.2⟩ this.1 this.2.1
    split at h
    · have hInv2 : Inv (debugStep cfg (loopCheck { s with iterations := s.iterations + 1 })) := by
        have := debugStep_proj cfg (loopCheck { s with iterations := s.iterations + 1 })
        exact inv_of_eq_fields hInv1 this.1 this.2.1
      exact execInstr_inv hInv2 h
    · simp only [Option.some.injEq] at h; subst h; exact hInv1

theorem init_inv (inputChars : List Nat) (commands : List String) :
    Inv (initState inputChars commands) := by
  refine ⟨by norm_num [initState, TAPE_SIZE], by simp [initState], ?_⟩
  intro v hv
  simp only [initState, List.mem_replicate] at hv
  omega

theorem run_inv {cfg : Config} : ∀ (fuel : Nat) {s : BFState}, Inv s → Inv (run cfg fuel s) := by
  intro fuel
  induction fuel with
  | zero => intro s hs; simpa [run] using hs
  | succ n ih =>
    intro s hs
    simp only [run]
    split
    · cases hstep : step cfg s with
      | none => exact hs
      | some t => exact ih (step_inv hs hstep)
    · exact hs

theorem execTrace_length_le (cfg : Config) :
    ∀ (fuel : Nat) (s : BFState),
      (execTrace cfg fuel s).length ≤ MAX_ITERATIONS + 1 - s.iterations := by
  intro fuel
  induction fuel with
  | zero => intro s; simp [execTrace]
  | succ n ih =>
    intro s
    simp only [execTrace]
    split
    · cases hstep : step cfg s with
      | none => simp
      | some t =>
        have hit := step_some_iterations hstep
        have htail := ih t
        rw [hit] at htail
        by_cases hc : cycleExec s = true
        · have hle : s.iterations ≤ MAX_ITERATIONS := by
            by_contra hgt
            push_neg at hgt
            simp [cycleExec, hgt] at hc
          simp only [hc, if_true, List.length_append, List.length_singleton]
          omega
        · simp only [Bool.not_eq_true] at hc
          simp [hc]
          omega
    · simp

end BF
namespace BF

theorem firstNonMarker_spec :
    ∀ (l : List Char) (j : Nat), firstNonMarker l = some j →
      j < l.length ∧ (∀ i < j, l.getD i ' ' = '#') ∧ l.getD j ' ' ≠ '#' := by
  intro l
  induction l with
  | nil => intro j h; simp [firstNonMarker] at h
  | cons c rest ih =>
    intro j h
    simp only [firstNonMarker] at h
    split_ifs at h with hc
    · cases hfm : firstNonMarker rest with
      | none => rw [hfm] at h; simp at h
      | some j0 =>
        rw [hfm] at h
        simp only [Option.map_some', Option.some.injEq] at h
        subst h
        obtain ⟨h1, h2, h3⟩ := ih j0 hfm
        refine ⟨by simp; omega, ?_, by simpa using h3⟩
        intro i hi
        cases i with
        | zero => simpa using hc
        | succ i0 => simpa using h2 i0 (by omega)
    · simp only [Option.some.injEq] at h
      subst h
      exact ⟨by simp, by intro i hi; exact absurd hi (Nat.not_lt_zero i), by simpa using hc⟩

theorem take_filter_of_no_marker {code : List Char} {p : Nat} (hp : p ≤ code.length)
    (h0 : ∀ i < p, code.getD i ' ' ≠ '#') :
    (code.take p).filter (fun c => c ≠ '#') = code.take p := by
  rw [List.filter_eq_self]
  intro a ha
  rw [List.mem_take_iff_getElem] at ha
  obtain ⟨i, hm, rfl⟩ := ha
  have hi : i < p := lt_of_lt_of_le hm (min_le_left _ _)
  have hilen : i < code.length := lt_of_lt_of_le hm (min_le_right _ _)
  have hne := h0 i hi
  rw [List.getD_eq_getElem?_getD, List.getElem?_eq_getElem hilen, Option.getD_some] at hne
  simp only [ne_eq, decide_not, Bool.not_eq_true', decide_eq_false_iff_not]
  exact hne

theorem take_filter_all_marker {l : List Char} {j : Nat} (hj : j ≤ l.length)
    (hall : ∀ i < j, l.getD i ' ' = '#') :
    (l.take j).filter (fun c => c ≠ '#') = [] := by
  rw [List.filter_eq_nil_iff]
  intro a ha
  rw [List.mem_take_iff_getElem] at ha
  obtain ⟨i, hm, rfl⟩ := ha
  have hi : i < j := lt_of_lt_of_le hm (min_le_left _ _)
  have hilen : i < l.length := lt_of_lt_of_le hm (min_le_right _ _)
  have heq := hall i hi
  rw [List.getD_eq_getElem?_getD, List.getElem?_eq_getElem hilen, Option.getD_some] at heq
  simp only [ne_eq, decide_not, Bool.not_eq_true', decide_eq_false_iff_not, not_not]
  exact heq

theorem breakpoint_alignment {source : List Char} {p q : Nat}
    (hp : p ∈ findBreakpoints source)
    (hq : nextNonMarker source p = some q)
    (h0 : ∀ i < p, source.getD i ' ' ≠ '#') :
    strippedIndex source q = p ∧
    (stripMarkers source).getD p ' ' = source.getD q ' ' := by
  have hp2 : p < source.length ∧ source.getD p ' ' = '#' := by
    simpa [findBreakpoints, List.mem_filter, List.mem_range] using hp
  obtain ⟨hplen, hpmark⟩ := hp2
  simp only [nextNonMarker, Option.map_eq_some'] at hq
  obtain ⟨j, hj, hqeq⟩ := hq
  obtain ⟨hjlen, hjall, hjnot⟩ := firstNonMarker_spec _ _ hj
  rw [List.length_drop] at hjlen
  have hqval : q = p + 1 + j := by omega
  subst hqval
  have hlen : p + 1 + j < source.length := by omega
  have hgetp : source[p]? = some '#' := by
    rw [List.getD_eq_getElem?_getD, List.getElem?_eq_getElem hplen, Option.getD_some] at hpmark
    rw [List.getElem?_eq_getElem hplen, hpmark]
  have hfiltp1 : (source.take (p + 1)).filter (fun c => c ≠ '#') = source.take p := by
    rw [List.take_succ, List.filter_append, hgetp,
        take_filter_of_no_marker (le_of_lt hplen) h0]
    simp
  have hfiltmid : ((source.drop (p + 1)).take j).filter (fun c => c ≠ '#') = [] :=
    take_filter_all_marker (by rw [List.length_drop]; omega) hjall
  have htakelen : (source.take p).length = p := by
    rw [List.length_take]; omega
  have hfiltq : (source.take (p + 1 + j)).filter (fun c => c ≠ '#') = source.take p := by
    rw [List.take_add, List.filter_append, hfiltp1, hfiltmid, List.append_nil]
  constructor
  · rw [strippedIndex, hfiltq, htakelen]
  · have hq_ne : source[p + 1 + j] ≠ '#' := by
      rw [List.getD_eq_getElem?_getD, List.getElem?_drop, List.getElem?_eq_getElem hlen,
          Option.getD_some] at hjnot
      exact hjnot
    have hsplit : stripMarkers source =
        source.take p ++
          (source[p + 1 + j] :: (source.drop (p + 1 + j + 1)).filter (fun c => c ≠ '#')) := by
      rw [stripMarkers]
      conv_lhs =>
        rw [show source = source.take (p + 1 + j) ++ source.drop (p + 1 + j) from
              (List.take_append_drop _ _).symm]
      rw [List.filter_append, hfiltq, List.drop_eq_getElem_cons hlen, List.filter_cons]
      simp [hq_ne]
    rw [hsplit, List.getD_append_right _ _ _ _ (by rw [htakelen]), htakelen, Nat.sub_self,
        List.getD_cons_zero, List.getD_eq_getElem?_getD, List.getElem?_eq_getElem hlen,
        Option.getD_some]

end BF
namespace BF

theorem loopCheck_reason (s : BFState) :
    (loopCheck s).reason = s.reason ∨ (loopCheck s).reason = some Reason.loopSuspected := by
  simp only [loopCheck]
  split_ifs <;> simp

theorem applyDebugCommand_reason (cmd : String) (s : BFState) :
    (applyDebugCommand cmd s).reason = s.reason ∨
    (applyDebugCommand cmd s).reason = some Reason.userQuit := by
  simp only [applyDebugCommand]
  split_ifs <;> simp

theorem debugStep_reason (cfg : Config) (s : BFState) :
    (debugStep cfg s).reason = s.reason ∨ (debugStep cfg s).reason = some Reason.userQuit := by
  unfold debugStep
  split
  · exact applyDebugCommand_reason _ _
  · left; rfl

theorem execInstr_some_reason {cfg : Config} {s t : BFState}
    (h : execInstr cfg s = some t) : t.reason = s.reason := by
  simp only [execInstr, Option.map_eq_some'] at h
  obtain ⟨u, hu, rfl⟩ := h
  split at hu
  · simp only [Option.some.injEq] at hu; subst hu; rfl
  · split_ifs at hu
    all_goals first
      | (simp only [Option.some.injEq] at hu; subst hu; rfl)
      | (split at hu <;>
          first
            | (simp only [Option.some.injEq] at hu; subst hu; rfl)
            | simp at hu)

theorem step_reason_below {cfg : Config} {s t : BFState}
    (hle : s.iterations ≤ MAX_ITERATIONS) (h : step cfg s = some t) :
    t.reason = s.reason ∨ t.reason = some Reason.loopSuspected ∨
    t.reason = some Reason.userQuit := by
  simp only [step] at h
  rw [if_neg (by omega)] at h
  split at h
  · rw [execInstr_some_reason h]
    rcases debugStep_reason cfg (loopCheck { s with iterations := s.iterations + 1 }) with h1 | h1
    · rw [h1]
      rcases loopCheck_reason { s with iterations := s.iterations + 1 } with h2 | h2
      · left; exact h2
      · right; left; exact h2
    · right; right; exact h1
  · simp only [Option.some.injEq] at h; subst h
    rcases loopCheck_reason { s with iterations := s.iterations + 1 } with h2 | h2
    · left; exact h2
    · right; left; exact h2

end BF
namespace BF

/-- C1: for the program ++++[>++++<-]>. run with debug disabled and no
interruption, the run ends with status completed, the loop body (positions 5
to 11 of the stream, entered at position 5) executes exactly 4 times, cell 1
holds 16, and the output is exactly the single character code 16. -/
theorem C1_loop_example :
    (mkResult (run cfg1 100 init0)).status = "completed" ∧
    (run cfg1 100 init0).codePointer = cfg1.code.length ∧
    (run cfg1 100 init0).memory.getD 1 0 = 16 ∧
    (run cfg1 100 init0).output = [16] ∧
    (execTrace cfg1 100 init0).count 5 = 4 ∧
    (execTrace cfg1 100 init0).count 11 = 4 := by
  decide

/-- C2: the cursor stays inside the 30000-cell tape and every cell stays a
byte: the invariant holds after every cycle of every run, each cycle preserves
it, and the four arithmetic tape operations are total on the invariant
domain. -/
theorem C2_tape_invariant :
    (∀ (cfg : Config) (s t : BFState), Inv s → step cfg s = some t → Inv t) ∧
    (∀ (cfg : Config) (fuel : Nat) (inputChars : List Nat) (commands : List String),
       Inv (run cfg fuel (initState inputChars commands))) ∧
    (∀ p : Nat, p < TAPE_SIZE → moveRight p < TAPE_SIZE ∧ moveLeft p < TAPE_SIZE) ∧
    (∀ v : Nat, incByte v < 256) ∧
    (∀ v : Nat, v < 256 → decByte v < 256) := by
  refine ⟨fun cfg s t h1 h2 => step_inv h1 h2,
          fun cfg fuel i c => run_inv fuel (init_inv i c),
          fun p hp => ⟨moveRight_lt p, moveLeft_lt hp⟩,
          incByte_lt,
          fun v hv => decByte_lt hv⟩

theorem C2_tape_invariant_witness :
    Inv (run cfg1 100 (initState [] [])) ∧
    (moveRight 29999 < TAPE_SIZE ∧ moveLeft 29999 < TAPE_SIZE) ∧
    decByte 0 < 256 :=
  ⟨C2_tape_invariant.2.1 cfg1 100 [] [],
   C2_tape_invariant.2.2.1 29999 (by norm_num [TAPE_SIZE]),
   C2_tape_invariant.2.2.2.2 0 (by norm_num)⟩

/-- C3 (counterexample): in the state reached after 10000000 executed cycles
the incremented counter, 10000001, exceeds the ceiling, yet the cycle still
executes its instruction (the first cell is incremented) and the machine stays
running: the guard compares the counter before the increment, so it does not
fire here. -/
theorem C3_counterexample :
    MAX_ITERATIONS < s3.iterations + 1 ∧
    (step cfg3 s3).map
        (fun t => (t.isRunning, t.memory.getD 0 0, t.output, t.iterations)) =
      some (true, 1, [], 10000001) := by
  decide

/-- C3 (amended): the guard evaluates iterations++ > 10000000, comparing the
pre-increment counter, so the cycle whose pre-increment counter is 10000000
still executes and the first guarded cycle is the next one; consequently at
most 10000001 instructions execute in any run.  Below the ceiling the guard
never fires: a surviving cycle can only set the loop-heuristic or user-quit
reason. -/
theorem C3_iteration_guard :
    MAX_ITERATIONS = 10000000 ∧
    (∀ (cfg : Config) (s : BFState), MAX_ITERATIONS < s.iterations →
       step cfg s = some { s with iterations := s.iterations + 1, isRunning := false,
                                  reason := some Reason.iterationLimit }) ∧
    (∀ (cfg : Config) (s t : BFState), s.iterations ≤ MAX_ITERATIONS →
       step cfg s = some t →
       t.reason = s.reason ∨ t.reason = some Reason.loopSuspected ∨
       t.reason = some Reason.userQuit) ∧
    (∀ (cfg : Config) (fuel : Nat) (inputChars : List Nat) (commands : List String),
       (execTrace cfg fuel (initState inputChars commands)).length ≤ 10000001) := by
  refine ⟨rfl, ?_, fun cfg s t h1 h2 => step_reason_below h1 h2, ?_⟩
  · intro cfg s h
    simp only [step, if_pos h]
  · intro cfg fuel i c
    have := execTrace_length_le cfg fuel (initState i c)
    simpa [initState, MAX_ITERATIONS] using this

theorem C3_iteration_guard_witness :
    step cfg3 { init0 with iterations := 10000001 } =
      some { { init0 with iterations := 10000001 } with
               iterations := ({ init0 with iterations := 10000001 } : BFState).iterations + 1,
               isRunning := false, reason := some Reason.iterationLimit } ∧
    (execTrace cfg3 5 (initState [] [])).length ≤ 10000001 :=
  ⟨C3_iteration_guard.2.1 cfg3 { init0 with iterations := 10000001 }
     (by norm_num [MAX_ITERATIONS]),
   C3_iteration_guard.2.2.2 cfg3 5 [] []⟩

/-- C4 (counterexample): running +[-+] the fingerprint before cycle 2 equals
the fingerprint before cycle 5, and the instruction pointer changed between
the consecutive cycles 4 and 5; were the fingerprint checked against the
history on every cycle, the recurrence would have ended the run, but after 20
cycles the machine is still running and the history set is still empty: the
check only runs when the instruction pointer repeats consecutively. -/
theorem C4_counterexample :
    fingerprint (run cfg4 2 init0) = fingerprint (run cfg4 5 init0) ∧
    (run cfg4 4 init0).codePointer ≠ (run cfg4 5 init0).codePointer ∧
    (run cfg4 20 init0).isRunning = true ∧
    (run cfg4 20 init0).reason = none ∧
    (run cfg4 20 init0).loopHistory = ∅ := by
  decide

/-- C4 (amended): the fingerprint is computed, recorded and checked only on
cycles whose instruction pointer equals the previous cycle's; on other cycles
the history and the running flag are untouched and the same-position counter
resets.  When the pointer does repeat and the fingerprint is already in the
history, the run ends with the infinite-loop reason. -/
theorem C4_loop_guard :
    (∀ s : BFState, ¬ s.lastCodePointer = some s.codePointer →
       (loopCheck s).loopHistory = s.loopHistory ∧
       (loopCheck s).isRunning = s.isRunning ∧
       (loopCheck s).reason = s.reason ∧
       (loopCheck s).samePositionCount = 0) ∧
    (∀ s : BFState, s.lastCodePointer = some s.codePointer →
       fingerprint s ∈ s.loopHistory →
       (loopCheck s).isRunning = false ∧
       (loopCheck s).reason = some Reason.loopSuspected) := by
  constructor
  · intro s h
    simp only [loopCheck, if_neg h]
    simp
  · intro s h hfp
    have hdet : (detectInfiniteLoop (fingerprint s) s.loopHistory).1 = true := by
      simp [detectInfiniteLoop, hfp]
    simp only [loopCheck, if_pos h]
    split_ifs <;> simp_all

theorem C4_loop_guard_witness :
    (loopCheck init0).loopHistory = init0.loopHistory ∧
    (loopCheck s4w).isRunning = false ∧
    (loopCheck s4w).reason = some Reason.loopSuspected :=
  ⟨(C4_loop_guard.1 init0 (by decide)).1,
   (C4_loop_guard.2 s4w (by decide) (by decide)).1,
   (C4_loop_guard.2 s4w (by decide) (by decide)).2⟩

end BF
namespace BF

/-- C5 (counterexample): in the source +#+#+. the markers sit at positions 1
and 3; for the second marker, which is preceded by an earlier marker, the
instruction that immediately followed it in the original text (position 4)
sits at position 2 of the stripped stream, while the engine pauses at stripped
position 3: it pauses before the . instruction instead of before that +, so
breakpoint positions are not aligned with the stripped stream once an earlier
marker exists. -/
theorem C5_counterexample :
    findBreakpoints src5 = [1, 3] ∧
    nextNonMarker src5 3 = some 4 ∧
    strippedIndex src5 4 = 2 ∧
    (2 : Nat) ≠ 3 ∧
    pauseCond (mkConfig true src5) { init0 with codePointer := 3 } = true ∧
    (stripMarkers src5).getD 3 ' ' = '.' ∧
    src5.getD 4 ' ' = '+' := by
  decide

/-- C5 (amended): breakpoint positions are the indices of the markers in the
original text, the engine pauses exactly at code positions listed there, and
the pause falls before the instruction that immediately followed the marker
exactly in the case that no earlier marker precedes it: then the stripped
index of the following instruction equals the recorded position, and the
instruction found at that stripped position is that follower. -/
theorem C5_breakpoint_positions :
    (∀ (source : List Char) (p : Nat),
       p ∈ findBreakpoints source ↔ p < source.length ∧ source.getD p ' ' = '#') ∧
    (∀ (source : List Char) (s : BFState),
       pauseCond (mkConfig true source) s =
         (s.stepMode || (findBreakpoints source).contains s.codePointer)) ∧
    (∀ (source : List Char) (p q : Nat),
       p ∈ findBreakpoints source →
       nextNonMarker source p = some q →
       (∀ i < p, source.getD i ' ' ≠ '#') →
       strippedIndex source q = p ∧
       (stripMarkers source).getD p ' ' = source.getD q ' ') := by
  refine ⟨?_, ?_, fun source p q hp hq h0 => breakpoint_alignment hp hq h0⟩
  · intro source p
    simp [findBreakpoints, List.mem_filter, List.mem_range]
  · intro source s
    simp [pauseCond, mkConfig]

theorem C5_breakpoint_positions_witness :
    (1 ∈ findBreakpoints srcW ↔ 1 < srcW.length ∧ srcW.getD 1 ' ' = '#') ∧
    strippedIndex srcW 1 = 0 ∧
    (stripMarkers srcW).getD 0 ' ' = srcW.getD 1 ' ' :=
  ⟨C5_breakpoint_positions.1 srcW 1,
   (C5_breakpoint_positions.2.2 srcW 0 1 (by decide) (by decide)
      (fun i hi => absurd hi (Nat.not_lt_zero i))).1,
   (C5_breakpoint_positions.2.2 srcW 0 1 (by decide) (by decide)
      (fun i hi => absurd hi (Nat.not_lt_zero i))).2⟩

/-- C6 (counterexample): running .+ the first cycle emits the character 0, so
partial output exists; when the cancellation signal is observed at the top of
the next cycle, the handler exits the process and no result object reaches the
caller, so the partial output is lost rather than returned. -/
theorem C6_counterexample :
    (run cfg6c 1 init0).output = [0] ∧
    runWithInterrupt cfg6c 100 1 init0 = none := by
  decide

/-- C6 (amended): the returned object always carries the accumulated output,
and each in-process termination cause (normal completion, the infinite-loop
guard, the iteration guard, the q command) reaches the return statement with
the partial output intact; an external interruption instead exits the process
and returns nothing. -/
theorem C6_result_output :
    (∀ (cfg : Config) (fuel : Nat) (s : BFState),
       (mkResult (run cfg fuel s)).output = (run cfg fuel s).output) ∧
    ((mkResult (run cfg1 100 init0)).status = "completed" ∧
       (mkResult (run cfg1 100 init0)).output = [16]) ∧
    ((run cfg6b 50 init0).reason = some Reason.loopSuspected ∧
       (mkResult (run cfg6b 50 init0)).status = "terminated" ∧
       (mkResult (run cfg6b 50 init0)).output = [1]) ∧
    ((step cfg3 s6iter).map (fun t => (t.reason, t.output)) =
       some (some Reason.iterationLimit, [7])) ∧
    ((run cfg6d 50 init6d).reason = some Reason.userQuit ∧
       (mkResult (run cfg6d 50 init6d)).status = "terminated" ∧
       (mkResult (run cfg6d 50 init6d)).output = [0]) ∧
    (∀ (cfg : Config) (fuel : Nat) (s : BFState),
       runWithInterrupt cfg fuel 0 s = none) := by
  refine ⟨fun cfg fuel s => rfl, by decide, by decide, by decide, by decide, ?_⟩
  intro cfg fuel s
  cases fuel <;> simp [runWithInterrupt]

/-- C7: incrementing a byte 256 times returns it to its value, decrementing 0
gives 255, moving left from cursor 0 gives 29999, and moving right from 29999
gives 0. -/
theorem C7_wraparound :
    (∀ v : Nat, v < 256 → incByte^[256] v = v) ∧
    decByte 0 = 255 ∧
    moveLeft 0 = 29999 ∧
    moveRight 29999 = 0 := by
  have hiter : ∀ (n : Nat) (v : Nat), incByte^[n + 1] v = (v + (n + 1)) % 256 := by
    intro n
    induction n with
    | zero => intro v; simp [incByte]
    | succ m ih =>
      intro v
      rw [Function.iterate_succ_apply', ih v, incByte]
      omega
    
  refine ⟨?_, by decide, by decide, by decide⟩
  intro v hv
  have := hiter 255 v
  rw [show (255 : Nat) + 1 = 256 from rfl] at this
  rw [this]
  omega

theorem C7_wraparound_witness : incByte^[256] 37 = 37 :=
  C7_wraparound.1 37 (by norm_num)

/-- C8: one invocation of the loop detector keeps the history at no more than
1000 fingerprints, reports a loop exactly for a fingerprint already present
(never on first occurrence), and clears the set entirely when the insertion
overflows the cap. -/
theorem C8_history_cap (fp : Nat × Nat × Nat) (h : Finset (Nat × Nat × Nat))
    (hcard : h.card ≤ 1000) :
    (detectInfiniteLoop fp h).2.card ≤ 1000 ∧
    ((detectInfiniteLoop fp h).1 = true ↔ fp ∈ h) ∧
    (fp ∉ h → 1000 < (insert fp h).card → (detectInfiniteLoop fp h).2 = ∅) := by
  by_cases hin : fp ∈ h
  · simp [detectInfiniteLoop, hin, hcard]
  · simp only [detectInfiniteLoop]
    rw [if_neg hin]
    by_cases hbig : 1000 < (insert fp h).card
    · rw [if_pos hbig]
      refine ⟨by simp, by simp [hin], fun _ _ => rfl⟩
    · rw [if_neg hbig]
      exact ⟨Nat.le_of_not_lt hbig, by simp [hin], fun _ hb => absurd hb hbig⟩

theorem C8_history_cap_witness :
    (detectInfiniteLoop (0, 0, 0) ∅).2.card ≤ 1000 ∧
    ((detectInfiniteLoop (0, 0, 0) ∅).1 = true ↔
       (0, 0, 0) ∈ (∅ : Finset (Nat × Nat × Nat))) :=
  ⟨(C8_history_cap (0, 0, 0) ∅ (by simp)).1,
   (C8_history_cap (0, 0, 0) ∅ (by simp)).2.1⟩

end BF
namespace BF

/-- C9: the debug session prompts exactly when step mode is active or the
instruction pointer is listed as a breakpoint; the q command stops the run
with the user-quit reason whatever the mode, s enters step mode (so any later
cycle pauses again), c leaves step mode, and any other line changes
nothing. -/
theorem C9_debug_commands :
    (∀ (cfg : Config) (s : BFState), cfg.debug = true →
       (pauseCond cfg s = true ↔
         (s.stepMode = true ∨ cfg.breakpoints.contains s.codePointer = true))) ∧
    (∀ (cfg : Config) (s : BFState), pauseCond cfg s = true →
       debugStep cfg s =
         applyDebugCommand (s.commands.headD "") { s with commands := s.commands.tail }) ∧
    (∀ (cfg : Config) (s : BFState), pauseCond cfg s = false → debugStep cfg s = s) ∧
    (∀ (cmd : String) (s : BFState), toLowerString cmd = "q" →
       (applyDebugCommand cmd s).isRunning = false ∧
       (applyDebugCommand cmd s).reason = some Reason.userQuit ∧
       (applyDebugCommand cmd s).stepMode = s.stepMode) ∧
    (∀ (cmd : String) (s : BFState), toLowerString cmd = "s" →
       (applyDebugCommand cmd s).stepMode = true ∧
       (applyDebugCommand cmd s).isRunning = s.isRunning ∧
       (∀ cfg : Config, cfg.debug = true →
          pauseCond cfg (applyDebugCommand cmd s) = true)) ∧
    (∀ (cmd : String) (s : BFState), toLowerString cmd = "c" →
       (applyDebugCommand cmd s).stepMode = false ∧
       (applyDebugCommand cmd s).isRunning = s.isRunning) ∧
    (∀ (cmd : String) (s : BFState),
       toLowerString cmd ≠ "q" → toLowerString cmd ≠ "s" → toLowerString cmd ≠ "c" →
       applyDebugCommand cmd s = s) := by
  refine ⟨?_, ?_, ?_, ?_, ?_, ?_, ?_⟩
  · intro cfg s hdbg
    simp [pauseCond, hdbg]
  · intro cfg s hp
    simp [debugStep, hp]
  · intro cfg s hp
    simp [debugStep, hp]
  · intro cmd s hcmd
    simp [applyDebugCommand, hcmd]
  · intro cmd s hcmd
    refine ⟨by simp [applyDebugCommand, hcmd], by simp [applyDebugCommand, hcmd], ?_⟩
    intro cfg hdbg
    have hstep : (applyDebugCommand cmd s).stepMode = true := by
      simp [applyDebugCommand, hcmd]
    simp [pauseCond, hdbg, hstep]
  · intro cmd s hcmd
    exact ⟨by simp [applyDebugCommand, hcmd], by simp [applyDebugCommand, hcmd]⟩
  · intro cmd s h1 h2 h3
    simp [applyDebugCommand, h1, h2, h3]

theorem C9_debug_commands_witness :
    (pauseCond cfg6d init6d = true ↔
       (init6d.stepMode = true ∨ cfg6d.breakpoints.contains init6d.codePointer = true)) ∧
    (applyDebugCommand "q" init0).isRunning = false ∧
    (applyDebugCommand "q" init0).reason = some Reason.userQuit ∧
    (applyDebugCommand "S" init0).stepMode = true ∧
    (applyDebugCommand "c" init0).stepMode = false ∧
    applyDebugCommand "x" init0 = init0 :=
  ⟨C9_debug_commands.1 cfg6d init6d rfl,
   (C9_debug_commands.2.2.2.1 "q" init0 (by decide)).1,
   (C9_debug_commands.2.2.2.1 "q" init0 (by decide)).2.1,
   (C9_debug_commands.2.2.2.2.1 "S" init0 (by decide)).1,
   (C9_debug_commands.2.2.2.2.2.1 "c" init0 (by decide)).1,
   C9_debug_commands.2.2.2.2.2.2 "x" init0 (by decide) (by decide) (by decide)⟩

/-- C10: each instruction mutates at most one component besides the
instruction pointer: the moves touch no cell and no output, the three
cell-writers leave the cursor, the output and every other cell alone, the
output instruction only appends one character, the brackets move only the
instruction pointer, and an unrecognized character changes nothing else. -/
theorem C10_instruction_frame (cfg : Config) (s t : BFState)
    (h : execInstr cfg s = some t) :
    (∀ c : Char, cfg.code[s.codePointer]? = some c → (c = '>' ∨ c = '<') →
       t.memory = s.memory ∧ t.output = s.output ∧ t.inputChars = s.inputChars ∧
       t.codePointer = s.codePointer + 1) ∧
    (∀ c : Char, cfg.code[s.codePointer]? = some c → (c = '+' ∨ c = '-' ∨ c = ',') →
       t.pointer = s.pointer ∧ t.output = s.output ∧
       t.codePointer = s.codePointer + 1 ∧
       (∀ i : Nat, i ≠ s.pointer → t.memory.getD i 0 = s.memory.getD i 0)) ∧
    (cfg.code[s.codePointer]? = some '.' →
       t.memory = s.memory ∧ t.pointer = s.pointer ∧ t.inputChars = s.inputChars ∧
       t.codePointer = s.codePointer + 1 ∧
       t.output = s.output ++ [s.memory.getD s.pointer 0]) ∧
    (∀ c : Char, cfg.code[s.codePointer]? = some c → (c = '[' ∨ c = ']') →
       t.memory = s.memory ∧ t.pointer = s.pointer ∧ t.output = s.output ∧
       t.inputChars = s.inputChars) ∧
    (∀ c : Char, cfg.code[s.codePointer]? = some c →
       c ∉ (['>', '<', '+', '-', '.', ',', '[', ']'] : List Char) →
       t = { s with codePointer := s.codePointer + 1 }) := by
  simp only [execInstr, Option.map_eq_some'] at h
  obtain ⟨u, hu, rfl⟩ := h
  split at hu
  case h_1 heq =>
    refine ⟨fun c0 hc0 _ => ?_, fun c0 hc0 _ => ?_, fun hc0 => ?_,
            fun c0 hc0 _ => ?_, fun c0 hc0 _ => ?_⟩ <;>
      (rw [heq] at hc0; exact absurd hc0 (by simp))
  case h_2 c heq =>
    have inj : ∀ {c0 : Char}, cfg.code[s.codePointer]? = some c0 → c0 = c := by
      intro c0 hc0
      rw [heq] at hc0
      exact (Option.some.inj hc0).symm
    split_ifs at hu with hgt hlt hpl hmi hdot hcom hlb hz1 hrb hz2
    · have := Option.some.inj hu; subst this; subst hgt
      refine ⟨fun c0 hc0 hor => ⟨rfl, rfl, rfl, rfl⟩, ?_, ?_, ?_, ?_⟩
      · intro c0 hc0 hor; rw [inj hc0] at hor; exact absurd hor (by decide)
      · intro hc0; exact absurd (inj hc0) (by decide)
      · intro c0 hc0 hor; rw [inj hc0] at hor; exact absurd hor (by decide)
      · intro c0 hc0 hor; rw [inj hc0] at hor; exact absurd hor (by decide)
    · have := Option.some.inj hu; subst this; subst hlt
      refine ⟨fun c0 hc0 hor => ⟨rfl, rfl, rfl, rfl⟩, ?_, ?_, ?_, ?_⟩
      · intro c0 hc0 hor; rw [inj hc0] at hor; exact absurd hor (by decide)
      · intro hc0; exact absurd (inj hc0) (by decide)
      · intro c0 hc0 hor; rw [inj hc0] at hor; exact absurd hor (by decide)
      · intro c0 hc0 hor; rw [inj hc0] at hor; exact absurd hor (by decide)
    · have := Option.some.inj hu; subst this; subst hpl
      refine ⟨?_, ?_, ?_, ?_, ?_⟩
      · intro c0 hc0 hor; rw [inj hc0] at hor; exact absurd hor (by decide)
      · refine fun c0 hc0 hor => ⟨rfl, rfl, rfl, ?_⟩
        intro i hi
        show (s.memory.set s.pointer _).getD i 0 = s.memory.getD i 0
        rw [List.getD_eq_getElem?_getD, List.getElem?_set_ne (Ne.symm hi),
            ← List.getD_eq_getElem?_getD]
      · intro hc0; exact absurd (inj hc0) (by decide)
      · intro c0 hc0 hor; rw [inj hc0] at hor; exact absurd hor (by decide)
      · intro c0 hc0 hor; rw [inj hc0] at hor; exact absurd hor (by decide)
    · have := Option.some.inj hu; subst this; subst hmi
      refine ⟨?_, ?_, ?_, ?_, ?_⟩
      · intro c0 hc0 hor; rw [inj hc0] at hor; exact absurd hor (by decide)
      · refine fun c0 hc0 hor => ⟨rfl, rfl, rfl, ?_⟩
        intro i hi
        show (s.memory.set s.pointer _).getD i 0 = s.memory.getD i 0
        rw [List.getD_eq_getElem?_getD, List.getElem?_set_ne (Ne.symm hi),
            ← List.getD_eq_getElem?_getD]
      · intro hc0; exact absurd (inj hc0) (by decide)
      · intro c0 hc0 hor; rw [inj hc0] at hor; exact absurd hor (by decide)
      · intro c0 hc0 hor; rw [inj hc0] at hor; exact absurd hor (by decide)
    · have := Option.some.inj hu; subst this; subst hdot
      refine ⟨?_, ?_, fun hc0 => ⟨rfl, rfl, rfl, rfl, rfl⟩, ?_, ?_⟩
      · intro c0 hc0 hor; rw [inj hc0] at hor; exact absurd hor (by decide)
      · intro c0 hc0 hor; rw [inj hc0] at hor; exact absurd hor (by decide)
      · intro c0 hc0 hor; rw [inj hc0] at hor; exact absurd hor (by decide)
      · intro c0 hc0 hor; rw [inj hc0] at hor; exact absurd hor (by decide)
    · have := Option.some.inj hu; subst this; subst hcom
      refine ⟨?_, ?_, ?_, ?_, ?_⟩
      · intro c0 hc0 hor; rw [inj hc0] at hor; exact absurd hor (by decide)
      · refine fun c0 hc0 hor => ⟨rfl, rfl, rfl, ?_⟩
        intro i hi
        show (s.memory.set s.pointer _).getD i 0 = s.memory.getD i 0
        rw [List.getD_eq_getElem?_getD, List.getElem?_set_ne (Ne.symm hi),
            ← List.getD_eq_getElem?_getD]
      · intro hc0; exact absurd (inj hc0) (by decide)
      · intro c0 hc0 hor; rw [inj hc0] at hor; exact absurd hor (by decide)
      · intro c0 hc0 hor; rw [inj hc0] at hor; exact absurd hor (by decide)
    · subst hlb
      split at hu
      · have := Option.some.inj hu; subst this
        refine ⟨?_, ?_, ?_, fun c0 hc0 hor => ⟨rfl, rfl, rfl, rfl⟩, ?_⟩
        · intro c0 hc0 hor; rw [inj hc0] at hor; exact absurd hor (by decide)
        · intro c0 hc0 hor; rw [inj hc0] at hor; exact absurd hor (by decide)
        · intro hc0; exact absurd (inj hc0) (by decide)
        · intro c0 hc0 hor; rw [inj hc0] at hor; exact absurd hor (by decide)
      · simp at hu
    · subst hlb
      have := Option.some.inj hu; subst this
      refine ⟨?_, ?_, ?_, fun c0 hc0 hor => ⟨rfl, rfl, rfl, rfl⟩, ?_⟩
      · intro c0 hc0 hor; rw [inj hc0] at hor; exact absurd hor (by decide)
      · intro c0 hc0 hor; rw [inj hc0] at hor; exact absurd hor (by decide)
      · intro hc0; exact absurd (inj hc0) (by decide)
      · intro c0 hc0 hnot; rfl
    · subst hrb
      have := Option.some.inj hu; subst this
      refine ⟨?_, ?_, ?_, fun c0 hc0 hor => ⟨rfl, rfl, rfl, rfl⟩, ?_⟩
      · intro c0 hc0 hor; rw [inj hc0] at hor; exact absurd hor (by decide)
      · intro c0 hc0 hor; rw [inj hc0] at hor; exact absurd hor (by decide)
      · intro hc0; exact absurd (inj hc0) (by decide)
      · intro c0 hc0 hnot; rfl
    · subst hrb
      split at hu
      · have := Option.some.inj hu; subst this
        refine ⟨?_, ?_, ?_, fun c0 hc0 hor => ⟨rfl, rfl, rfl, rfl⟩, ?_⟩
        · intro c0 hc0 hor; rw [inj hc0] at hor; exact absurd hor (by decide)
        · intro c0 hc0 hor; rw [inj hc0] at hor; exact absurd hor (by decide)
        · intro hc0; exact absurd (inj hc0) (by decide)
        · intro c0 hc0 hor; rw [inj hc0] at hor; exact absurd hor (by decide)
      · simp at hu
    · have := Option.some.inj hu; subst this
      refine ⟨?_, ?_, ?_, ?_, fun c0 hc0 hnot => rfl⟩
      · intro c0 hc0 hor
        rw [inj hc0] at hor
        rcases hor with h | h <;> [exact absurd h hgt; exact absurd h hlt]
      · intro c0 hc0 hor
        rw [inj hc0] at hor
        rcases hor with h | h | h <;>
          [exact absurd h hpl; exact absurd h hmi; exact absurd h hcom]
      · intro hc0; exact absurd (inj hc0).symm hdot
      · intro c0 hc0 hor
        rw [inj hc0] at hor
        rcases hor with h | h <;> [exact absurd h hlb; exact absurd h hrb]

theorem C10_instruction_frame_witness :
    t10.pointer = init0.pointer ∧ t10.output = init0.output ∧
    t10.codePointer = init0.codePointer + 1 ∧
    t10.memory.getD 7 0 = init0.memory.getD 7 0 := by
  have h := C10_instruction_frame cfg1 init0 t10 rfl
  have h2 := h.2.1 '+' (by decide) (Or.inl rfl)
  exact ⟨h2.1, h2.2.1, h2.2.2.1, h2.2.2.2 7 (by decide)⟩

end BF
